import Mathlib

/-!
# Verification of the HSV chroma-key sticker pipeline

Shallow embedding of the image-processing core of
`scripts/interactions-generate-stickers.py`:

* `rgb_to_hsv_array` (per-pixel core `rgb_to_hsv_core`) — RGB→HSV conversion;
* `remove_green_screen_hsv` — range-based (hue/saturation/value) segmentation
  with optional morphological cleanup (dilation then erosion, one iteration
  each);
* `remove_green_screen_aggressive` — ratio-based segmentation;
* `cleanup_edges` — alpha binarization;
* `generate_sticker_extract` — extraction of the generated image from the
  list of interaction outputs.

Modelling conventions: the Python code computes on numpy `float32` arrays;
it is modelled here over ℚ (exact arithmetic).  Rasters are lists of rows of
RGBA pixels with ℕ channels, boolean masks are lists of rows of `Bool`.
`scipy.ndimage.binary_dilation` / `binary_erosion` with their default
structuring element (the 4-connected cross including the centre,
`generate_binary_structure(2, 1)`) and default `border_value = 0` are
modelled by `dilate1` / `erode1`: a read outside the grid yields `false`.
-/

/-- An RGBA pixel; the 8-bit channels are modelled as ℕ. -/
structure RGBA where
  r : ℕ
  g : ℕ
  b : ℕ
  a : ℕ
deriving Repr, DecidableEq

instance : Inhabited RGBA := ⟨⟨0, 0, 0, 0⟩⟩

/-- A raster image: a list of rows of pixels. -/
abbrev Raster := List (List RGBA)

/-- A binary mask: a list of rows of booleans. -/
abbrev Mask := List (List Bool)

/-- Bounds-checked read from a grid: positions outside the grid give the
default `d` (this is scipy's `border_value`). -/
def gget {α : Type} (d : α) (G : List (List α)) (i j : ℤ) : α :=
  if 0 ≤ i ∧ 0 ≤ j then (G.getD i.toNat []).getD j.toNat d else d

/-- Read a mask entry; out-of-grid reads are `false` (`border_value = 0`). -/
def mget (M : Mask) (i j : ℤ) : Bool := gget false M i j

/-- Read a pixel; out-of-grid reads give the all-zero pixel. -/
def pixelAt (img : Raster) (i j : ℤ) : RGBA := gget default img i j

/-- Position `(i, j)` addresses an entry of the grid `G`. -/
def inGrid {α : Type} (G : List (List α)) (i j : ℤ) : Prop :=
  0 ≤ i ∧ 0 ≤ j ∧ i.toNat < G.length ∧ j.toNat < (G.getD i.toNat []).length

instance {α : Type} (G : List (List α)) (i j : ℤ) : Decidable (inGrid G i j) := by
  unfold inGrid; infer_instance

/-- The dimensions of a grid: the list of its row lengths. -/
def dims {α : Type} (G : List (List α)) : List ℕ := G.map List.length

/-- Position-indexed map over one row (`i` is the row index, `j` the column
index of the first element). -/
def rowMapIdx {α β : Type} (f : ℤ → ℤ → α → β) (i j : ℤ) : List α → List β
  | [] => []
  | p :: ps => f i j p :: rowMapIdx f i (j + 1) ps

/-- Position-indexed map over a grid (`i` is the index of the first row). -/
def gridMapIdx {α β : Type} (f : ℤ → ℤ → α → β) (i : ℤ) :
    List (List α) → List (List β)
  | [] => []
  | row :: rows => rowMapIdx f i 0 row :: gridMapIdx f (i + 1) rows

lemma length_rowMapIdx {α β : Type} (f : ℤ → ℤ → α → β) :
    ∀ (l : List α) (i j : ℤ), (rowMapIdx f i j l).length = l.length := by
  intro l
  induction l with
  | nil => intro i j; rfl
  | cons p ps ih => intro i j; simp [rowMapIdx, ih]

lemma length_gridMapIdx {α β : Type} (f : ℤ → ℤ → α → β) :
    ∀ (G : List (List α)) (i : ℤ), (gridMapIdx f i G).length = G.length := by
  intro G
  induction G with
  | nil => intro i; rfl
  | cons row rows ih => intro i; simp [gridMapIdx, ih]

lemma getD_rowMapIdx {α β : Type} (f : ℤ → ℤ → α → β) (d : α) (d' : β) :
    ∀ (l : List α) (i j : ℤ) (k : ℕ), k < l.length →
      (rowMapIdx f i j l).getD k d' = f i (j + k) (l.getD k d) := by
  intro l
  induction l with
  | nil => intro i j k hk; simp at hk
  | cons p ps ih =>
    intro i j k hk
    cases k with
    | zero => simp [rowMapIdx]
    | succ k =>
      have hk' : k < ps.length := by simpa using hk
      have := ih i (j + 1) k hk'
      have harith : j + 1 + (k : ℤ) = j + ((k : ℕ) + 1 : ℕ) := by push_cast; ring
      simpa [rowMapIdx, harith] using this

lemma getD_gridMapIdx {α β : Type} (f : ℤ → ℤ → α → β) :
    ∀ (G : List (List α)) (i : ℤ) (k : ℕ),
      (gridMapIdx f i G).getD k [] = rowMapIdx f (i + k) 0 (G.getD k []) := by
  intro G
  induction G with
  | nil => intro i k; cases k <;> simp [gridMapIdx, rowMapIdx]
  | cons row rows ih =>
    intro i k
    cases k with
    | zero => simp [gridMapIdx]
    | succ k =>
      have := ih (i + 1) k
      have harith : i + 1 + (k : ℤ) = i + ((k : ℕ) + 1 : ℕ) := by push_cast; ring
      simpa [gridMapIdx, harith] using this

lemma dims_gridMapIdx {α β : Type} (f : ℤ → ℤ → α → β) :
    ∀ (G : List (List α)) (i : ℤ), dims (gridMapIdx f i G) = dims G := by
  intro G
  induction G with
  | nil => intro i; rfl
  | cons row rows ih =>
    intro i
    simp [gridMapIdx, dims, length_rowMapIdx] at *
    exact ih (i + 1)

/-- The central access lemma: reading the result of an indexed grid map at
`(i, j)` applies `f i j` to the original entry when `(i, j)` is in the grid,
and gives the border default otherwise. -/
lemma gget_gridMapIdx {α β : Type} (f : ℤ → ℤ → α → β) (d : α) (d' : β)
    (G : List (List α)) (i j : ℤ) :
    gget d' (gridMapIdx f 0 G) i j =
      if inGrid G i j then f i j (gget d G i j) else d' := by
  unfold gget inGrid
  by_cases hsign : 0 ≤ i ∧ 0 ≤ j
  · rw [if_pos hsign]
    rw [getD_gridMapIdx]
    by_cases hi : i.toNat < G.length
    · by_cases hj : j.toNat < (G.getD i.toNat []).length
      · rw [getD_rowMapIdx f d d' _ _ _ _ hj]
        rw [if_pos ⟨hsign.1, hsign.2, hi, hj⟩, if_pos hsign]
        congr 1
        · omega
        · omega
      · rw [List.getD_eq_default _ _ (by rw [length_rowMapIdx]; omega)]
        rw [if_neg (by tauto)]
    · have hrow : G.getD i.toNat [] = [] := List.getD_eq_default _ _ (by omega)
      rw [if_neg (by tauto), hrow]
      simp [rowMapIdx]
  · rw [if_neg hsign, if_neg (by tauto)]

lemma mget_true_inGrid {M : Mask} {i j : ℤ} (h : mget M i j = true) :
    inGrid M i j := by
  unfold mget gget at h
  by_cases hsign : 0 ≤ i ∧ 0 ≤ j
  · rw [if_pos hsign] at h
    by_cases hi : i.toNat < M.length
    · by_cases hj : j.toNat < (M.getD i.toNat []).length
      · exact ⟨hsign.1, hsign.2, hi, hj⟩
      · rw [List.getD_eq_default _ _ (by omega)] at h; simp at h
    · have hrow : M.getD i.toNat [] = [] := List.getD_eq_default _ _ (by omega)
      rw [hrow] at h; simp [List.getD] at h
  · rw [if_neg hsign] at h; simp at h

lemma inGrid_of_dims_eq {α β : Type} {A : List (List α)} {B : List (List β)}
    (h : dims A = dims B) {i j : ℤ} : inGrid A i j ↔ inGrid B i j := by
  have hlen : A.length = B.length := by
    have := congrArg List.length h; simpa [dims] using this
  have hrow : ∀ k : ℕ, (A.getD k []).length = (B.getD k []).length := by
    intro k
    by_cases hk : k < A.length
    · have h1 : (dims A).getD k 0 = (A.getD k []).length := by
        unfold dims
        rw [List.getD_eq_getElem?_getD, List.getD_eq_getElem?_getD]
        rw [List.getElem?_map]
        rw [List.getElem?_eq_getElem hk]
        simp [List.getD_eq_getElem?_getD, List.getElem?_eq_getElem hk]
      have h2 : (dims B).getD k 0 = (B.getD k []).length := by
        unfold dims
        have hk' : k < B.length := by omega
        rw [List.getD_eq_getElem?_getD, List.getD_eq_getElem?_getD]
        rw [List.getElem?_map]
        rw [List.getElem?_eq_getElem hk']
        simp [List.getD_eq_getElem?_getD, List.getElem?_eq_getElem hk']
      rw [← h1, ← h2, h]
    · rw [List.getD_eq_default _ _ (by omega), List.getD_eq_default _ _ (by omega)]
      rfl
  unfold inGrid
  rw [hlen, hrow]

/-! ## The source functions -/

/-- Python/numpy `x % 360` for a rational `x` (result has the sign of the
divisor, so it always lies in `[0, 360)`). -/
def qmod360 (x : ℚ) : ℚ := x - 360 * ((⌊x / 360⌋ : ℤ) : ℚ)

/-- Per-pixel core of `rgb_to_hsv_array` (source lines 65–98), on channels
already normalized to `[0, 1]`.  The source writes the three hue branches in
the order `max = r`, `max = g`, `max = b` into the same array, so on ties a
later branch overwrites an earlier one; that gives the `b`-before-`g`-
before-`r` priority of the nested `if` below.  Only the `max = r` branch
takes `% 360` in the source. -/
def rgb_to_hsv_core (rn gn bn : ℚ) : ℚ × ℚ × ℚ :=
  let max_c := max (max rn gn) bn
  let min_c := min (min rn gn) bn
  let delta := max_c - min_c
  let h : ℚ :=
    if max_c = bn ∧ delta ≠ 0 then 60 * ((rn - gn) / delta) + 240
    else if max_c = gn ∧ delta ≠ 0 then 60 * ((bn - rn) / delta) + 120
    else if max_c = rn ∧ delta ≠ 0 then qmod360 (60 * ((gn - bn) / delta) + 360)
    else 0
  let s : ℚ := if max_c ≠ 0 then delta / max_c else 0
  (h, s * 100, max_c * 100)

/-- The function `rgb_to_hsv_array` on one pixel: normalize the raw 8-bit channels by
`/ 255` and run the core conversion. -/
def rgb_to_hsv_pixel (r g b : ℕ) : ℚ × ℚ × ℚ :=
  rgb_to_hsv_core ((r : ℚ) / 255) ((g : ℚ) / 255) ((b : ℚ) / 255)

/-- The function `rgb_to_hsv_array` (source lines 65–98): the pixelwise conversion of a
whole raster (the alpha channel is ignored, as in `data[:, :, :3]`). -/
def rgb_to_hsv_array (img : Raster) : List (List (ℚ × ℚ × ℚ)) :=
  img.map (fun row => row.map (fun p => rgb_to_hsv_pixel p.r p.g p.b))

/-- The 4-connected structuring element of `generate_binary_structure(2, 1)`
(the scipy default), centre included. -/
def neighbors4c : List (ℤ × ℤ) := [(0, 0), (1, 0), (-1, 0), (0, 1), (0, -1)]

/-- One dilation step at a point: true iff the mask holds somewhere in the
cross-shaped neighbourhood (out-of-grid reads are `false`). -/
def dilateAt (M : Mask) (i j : ℤ) : Bool :=
  neighbors4c.any (fun dd => mget M (i + dd.1) (j + dd.2))

/-- One erosion step at a point: true iff the mask holds on the whole
cross-shaped neighbourhood (out-of-grid reads are `false`, scipy's default
`border_value = 0`, so erosion also eats the image border). -/
def erodeAt (M : Mask) (i j : ℤ) : Bool :=
  neighbors4c.all (fun dd => mget M (i + dd.1) (j + dd.2))

/-- Model of `scipy.ndimage.binary_dilation(M, iterations=1)`. -/
def dilate1 (M : Mask) : Mask := gridMapIdx (fun i j _ => dilateAt M i j) 0 M

/-- Model of `scipy.ndimage.binary_erosion(M, iterations=1)`. -/
def erode1 (M : Mask) : Mask := gridMapIdx (fun i j _ => erodeAt M i j) 0 M

/-- A pixelwise (vectorized, index-independent) boolean predicate over a
raster, producing a mask of the same dimensions. -/
def maskOf (f : RGBA → Bool) (img : Raster) : Mask :=
  gridMapIdx (fun _ _ p => f p) 0 img

/-- Model of `alpha[green_mask] = 0` followed by `data[:, :, 3] = alpha`: zero the
alpha channel of every pixel selected by the mask. -/
def setAlphaWhere (M : Mask) (img : Raster) : Raster :=
  gridMapIdx (fun i j p => if mget M i j then { p with a := 0 } else p) 0 img

/-- Per-pixel range test of `remove_green_screen_hsv` (source lines
127–137): circular hue distance strictly below `hue_range`, saturation and
value strictly above their minima. -/
def hsv_mask_pixel (hue_center hue_range min_saturation min_value : ℚ)
    (p : RGBA) : Bool :=
  let hsv := rgb_to_hsv_pixel p.r p.g p.b
  let hue_diff := |hsv.1 - hue_center|
  let hue_diff2 := min hue_diff (360 - hue_diff)
  decide (hue_diff2 < hue_range) &&
    (decide (hsv.2.1 > min_saturation) && decide (hsv.2.2 > min_value))

/-- The mask built by `remove_green_screen_hsv` (source lines 127–148):
the pixelwise range test, then — when `edge_cleanup` is set — one
dilation iteration followed by one erosion iteration. -/
def hsv_green_mask (img : Raster) (hue_center hue_range min_saturation
    min_value : ℚ) (edge_cleanup : Bool) : Mask :=
  let M := maskOf (hsv_mask_pixel hue_center hue_range min_saturation min_value) img
  if edge_cleanup then erode1 (dilate1 M) else M

/-- The function `remove_green_screen_hsv` (source lines 101–155): build the range-based
mask and zero the alpha of the masked pixels. -/
def remove_green_screen_hsv (img : Raster) (hue_center : ℚ := 120)
    (hue_range : ℚ := 60) (min_saturation : ℚ := 20) (min_value : ℚ := 20)
    (edge_cleanup : Bool := true) : Raster :=
  setAlphaWhere
    (hsv_green_mask img hue_center hue_range min_saturation min_value edge_cleanup)
    img

/-- Per-pixel ratio test of `remove_green_screen_aggressive` (source lines
172–183): `g / (max r b + 1) > green_threshold` and green strictly dominant
over both red and blue. -/
def aggressive_mask_pixel (green_threshold : ℚ) (p : RGBA) : Bool :=
  let r : ℚ := p.r
  let g : ℚ := p.g
  let b : ℚ := p.b
  let rb_max := max r b + 1
  decide (g / rb_max > green_threshold) && (decide (g > r) && decide (g > b))

/-- The mask built by `remove_green_screen_aggressive` (source lines
172–188): the pixelwise ratio test, dilated `edge_pixels` times when
`edge_pixels > 0`. -/
def aggressive_green_mask (img : Raster) (green_threshold : ℚ)
    (edge_pixels : ℕ) : Mask :=
  let M := maskOf (aggressive_mask_pixel green_threshold) img
  if 0 < edge_pixels then dilate1^[edge_pixels] M else M

/-- The function `remove_green_screen_aggressive` (source lines 158–195). -/
def remove_green_screen_aggressive (img : Raster) (green_threshold : ℚ := 6/5)
    (edge_pixels : ℕ := 0) : Raster :=
  setAlphaWhere (aggressive_green_mask img green_threshold edge_pixels) img

/-- Per-pixel alpha binarization of `cleanup_edges` (source lines 211–212),
with the source's sequential semantics: `alpha[alpha < threshold] = 0`
first, then `alpha[alpha >= threshold] = 255` on the updated values. -/
def binarize_alpha (threshold : ℤ) (a : ℕ) : ℕ :=
  let a1 : ℕ := if (a : ℤ) < threshold then 0 else a
  if (a1 : ℤ) ≥ threshold then 255 else a1

/-- The function `cleanup_edges` (source lines 198–215) on an RGBA raster. -/
def cleanup_edges (img : Raster) (threshold : ℤ := 128) : Raster :=
  img.map (fun row => row.map (fun p => { p with a := binarize_alpha threshold p.a }))

/-- The RGB channels of a raster (used to state that a stage only touches
alpha). -/
def rgbOf (img : Raster) : List (List (ℕ × ℕ × ℕ)) :=
  img.map (fun row => row.map (fun p => (p.r, p.g, p.b)))

/-- One output block of an interactions response. -/
structure GOutput where
  type : String
  data : String
deriving Repr, DecidableEq

/-- The failure raised by `generate_sticker` when no output is an image:
the source's `ValueError("No image was generated")` at line 323, which the
specification calls `MissingOutputError`. -/
inductive StickerFailure where
  | missingOutput : StickerFailure
deriving Repr, DecidableEq

/-- The output-extraction tail of `generate_sticker` (source lines
317–323): scan the interaction outputs in order, decode and return the
first one of type `"image"`, and fail with the missing-output error when
there is none.  `decode` stands for the external `decode_image`. -/
def generate_sticker_extract {α : Type} (decode : String → α) :
    List GOutput → Except StickerFailure α
  | [] => Except.error StickerFailure.missingOutput
  | o :: rest =>
    if o.type = "image" then Except.ok (decode o.data)
    else generate_sticker_extract decode rest

/-! ## Arithmetic helper lemmas -/

lemma qmod360_eq_fract (x : ℚ) : qmod360 x = 360 * Int.fract (x / 360) := by
  unfold qmod360
  rw [Int.fract]
  ring

lemma qmod360_nonneg (x : ℚ) : 0 ≤ qmod360 x := by
  rw [qmod360_eq_fract]
  have := Int.fract_nonneg (x / 360)
  linarith

lemma qmod360_lt (x : ℚ) : qmod360 x < 360 := by
  rw [qmod360_eq_fract]
  have := Int.fract_lt_one (x / 360)
  linarith

lemma qmod360_eq_self {x : ℚ} (h0 : 0 ≤ x) (h1 : x < 360) : qmod360 x = x := by
  unfold qmod360
  have hfloor : ⌊x / 360⌋ = 0 := by
    rw [Int.floor_eq_zero_iff]
    constructor
    · positivity
    · rw [div_lt_one (by norm_num : (0:ℚ) < 360)]; simpa using h1
  rw [hfloor]
  simp

lemma qmod360_add_360 (x : ℚ) : qmod360 (x + 360) = qmod360 x := by
  unfold qmod360
  have : (x + 360) / 360 = x / 360 + 1 := by ring
  rw [this, Int.floor_add_one]
  push_cast
  ring

lemma div_le_one_of_le_of_pos {num d : ℚ} (hd : 0 < d) (h : num ≤ d) :
    num / d ≤ 1 := (div_le_one hd).mpr h

lemma neg_one_le_div_of_le {num d : ℚ} (hd : 0 < d) (h : -d ≤ num) :
    -1 ≤ num / d := by
  rw [neg_le, ← neg_div]
  exact (div_le_one hd).mpr (by linarith)

lemma rn_le_max3 (rn gn bn : ℚ) : rn ≤ max (max rn gn) bn :=
  le_trans (le_max_left rn gn) (le_max_left _ bn)

lemma gn_le_max3 (rn gn bn : ℚ) : gn ≤ max (max rn gn) bn :=
  le_trans (le_max_right rn gn) (le_max_left _ bn)

lemma bn_le_max3 (rn gn bn : ℚ) : bn ≤ max (max rn gn) bn := le_max_right _ bn

lemma min3_le_rn (rn gn bn : ℚ) : min (min rn gn) bn ≤ rn :=
  le_trans (min_le_left _ bn) (min_le_left rn gn)

lemma min3_le_gn (rn gn bn : ℚ) : min (min rn gn) bn ≤ gn :=
  le_trans (min_le_left _ bn) (min_le_right rn gn)

lemma min3_le_bn (rn gn bn : ℚ) : min (min rn gn) bn ≤ bn := min_le_right _ bn

lemma max3_mem (rn gn bn : ℚ) :
    max (max rn gn) bn = rn ∨ max (max rn gn) bn = gn ∨ max (max rn gn) bn = bn := by
  rcases max_choice (max rn gn) bn with h | h
  · rcases max_choice rn gn with h' | h'
    · left; rw [h, h']
    · right; left; rw [h, h']
  · right; right; exact h

lemma min3_mem (rn gn bn : ℚ) :
    min (min rn gn) bn = rn ∨ min (min rn gn) bn = gn ∨ min (min rn gn) bn = bn := by
  rcases min_choice (min rn gn) bn with h | h
  · rcases min_choice rn gn with h' | h'
    · left; rw [h, h']
    · right; left; rw [h, h']
  · right; right; exact h

lemma qmod360_neg_sixty : qmod360 (-60 : ℚ) = 300 := by
  have h := qmod360_add_360 (-60 : ℚ)
  have h2 : (-60 : ℚ) + 360 = 300 := by norm_num
  rw [h2] at h
  rw [← h]
  exact qmod360_eq_self (by norm_num) (by norm_num)

lemma rgb_to_hsv_core_val (rn gn bn : ℚ) :
    (rgb_to_hsv_core rn gn bn).2.2 = max (max rn gn) bn * 100 := rfl

lemma rgb_to_hsv_core_sat (rn gn bn : ℚ) :
    (rgb_to_hsv_core rn gn bn).2.1 =
      (if max (max rn gn) bn ≠ 0 then
        (max (max rn gn) bn - min (min rn gn) bn) / max (max rn gn) bn
       else 0) * 100 := rfl

lemma rgb_to_hsv_core_hue (rn gn bn : ℚ) :
    (rgb_to_hsv_core rn gn bn).1 =
      if max (max rn gn) bn = bn ∧ max (max rn gn) bn - min (min rn gn) bn ≠ 0 then
        60 * ((rn - gn) / (max (max rn gn) bn - min (min rn gn) bn)) + 240
      else if max (max rn gn) bn = gn ∧ max (max rn gn) bn - min (min rn gn) bn ≠ 0 then
        60 * ((bn - rn) / (max (max rn gn) bn - min (min rn gn) bn)) + 120
      else if max (max rn gn) bn = rn ∧ max (max rn gn) bn - min (min rn gn) bn ≠ 0 then
        qmod360 (60 * ((gn - bn) / (max (max rn gn) bn - min (min rn gn) bn)) + 360)
      else 0 := rfl

/-- Full per-pixel characterization of the core HSV conversion: value is the
channel maximum, saturation is `delta / max` (0 when `max = 0`), the hue is
always in `[0, 360)`, is 0 when `delta = 0`, and otherwise agrees with the
standard three-branch formula (offsets 0°, 120°, 240°, taken modulo 360) for
every channel that attains the maximum. -/
lemma rgb_to_hsv_core_spec (rn gn bn : ℚ) :
    (rgb_to_hsv_core rn gn bn).2.2 = 100 * max (max rn gn) bn ∧
    (rgb_to_hsv_core rn gn bn).2.1 =
      100 * (if max (max rn gn) bn = 0 then 0
             else (max (max rn gn) bn - min (min rn gn) bn) / max (max rn gn) bn) ∧
    (0 ≤ (rgb_to_hsv_core rn gn bn).1 ∧ (rgb_to_hsv_core rn gn bn).1 < 360) ∧
    (max (max rn gn) bn - min (min rn gn) bn = 0 → (rgb_to_hsv_core rn gn bn).1 = 0) ∧
    (max (max rn gn) bn - min (min rn gn) bn ≠ 0 →
      (max (max rn gn) bn = rn →
        (rgb_to_hsv_core rn gn bn).1 =
          qmod360 (60 * ((gn - bn) / (max (max rn gn) bn - min (min rn gn) bn)))) ∧
      (max (max rn gn) bn = gn →
        (rgb_to_hsv_core rn gn bn).1 =
          qmod360 (60 * ((bn - rn) / (max (max rn gn) bn - min (min rn gn) bn)) + 120)) ∧
      (max (max rn gn) bn = bn →
        (rgb_to_hsv_core rn gn bn).1 =
          qmod360 (60 * ((rn - gn) / (max (max rn gn) bn - min (min rn gn) bn)) + 240))) := by
  rw [rgb_to_hsv_core_val, rgb_to_hsv_core_sat, rgb_to_hsv_core_hue]
  set mx := max (max rn gn) bn with hmxdef
  set mn := min (min rn gn) bn with hmndef
  have hrm : rn ≤ mx := rn_le_max3 rn gn bn
  have hgm : gn ≤ mx := gn_le_max3 rn gn bn
  have hbm : bn ≤ mx := bn_le_max3 rn gn bn
  have hmr : mn ≤ rn := min3_le_rn rn gn bn
  have hmg : mn ≤ gn := min3_le_gn rn gn bn
  have hmb : mn ≤ bn := min3_le_bn rn gn bn
  refine ⟨by ring, ?_, ?_⟩
  · by_cases h0 : mx = 0
    · rw [if_neg (by tauto), if_pos h0]; ring
    · rw [if_pos h0, if_neg h0]; ring
  by_cases hdelta : mx - mn = 0
  · rw [if_neg (by tauto), if_neg (by tauto), if_neg (by tauto)]
    exact ⟨⟨le_refl 0, by norm_num⟩, fun _ => rfl, fun hc => absurd hdelta hc⟩
  have hdpos : 0 < mx - mn := lt_of_le_of_ne (by linarith) (Ne.symm hdelta)
  by_cases hbcase : mx = bn
  · rw [if_pos ⟨hbcase, hdelta⟩]
    have hq1 : (rn - gn) / (mx - mn) ≤ 1 :=
      div_le_one_of_le_of_pos hdpos (by linarith)
    have hq2 : -1 ≤ (rn - gn) / (mx - mn) :=
      neg_one_le_div_of_le hdpos (by linarith)
    refine ⟨⟨by linarith, by linarith⟩, fun hc => absurd hc hdelta, fun _ => ⟨?_, ?_, ?_⟩⟩
    · intro hrcase
      have hmngn : mn = gn := by
        rcases min3_mem rn gn bn with h | h | h
        · exfalso; apply hdelta; rw [← hmndef] at h; rw [h, hrcase]; ring
        · rw [← hmndef] at h; exact h
        · exfalso; apply hdelta; rw [← hmndef] at h; rw [h, hbcase]; ring
      have e1 : (gn - bn) / (mx - mn) = -1 := by
        have h : gn - bn = -(mx - mn) := by rw [← hmngn, ← hbcase]; ring
        rw [h, neg_div, div_self hdelta]
      have e2 : (rn - gn) / (mx - mn) = 1 := by
        have h : rn - gn = mx - mn := by rw [← hmngn, ← hrcase]
        rw [h, div_self hdelta]
      rw [e1, e2]
      norm_num [qmod360_neg_sixty]
    · intro hgcase
      have hmnrn : mn = rn := by
        rcases min3_mem rn gn bn with h | h | h
        · rw [← hmndef] at h; exact h
        · exfalso; apply hdelta; rw [← hmndef] at h; rw [h, hgcase]; ring
        · exfalso; apply hdelta; rw [← hmndef] at h; rw [h, hbcase]; ring
      have e1 : (bn - rn) / (mx - mn) = 1 := by
        have h : bn - rn = mx - mn := by rw [← hmnrn, ← hbcase]
        rw [h, div_self hdelta]
      have e2 : (rn - gn) / (mx - mn) = -1 := by
        have h : rn - gn = -(mx - mn) := by rw [← hmnrn, ← hgcase]; ring
        rw [h, neg_div, div_self hdelta]
      rw [e1, e2]
      have h180 : qmod360 (180 : ℚ) = 180 := qmod360_eq_self (by norm_num) (by norm_num)
      norm_num [h180]
    · intro _
      have hq0 : 0 ≤ 60 * ((rn - gn) / (mx - mn)) + 240 := by linarith
      have hq360 : 60 * ((rn - gn) / (mx - mn)) + 240 < 360 := by linarith
      rw [qmod360_eq_self hq0 hq360]
  by_cases hgcase : mx = gn
  · rw [if_neg (by tauto), if_pos ⟨hgcase, hdelta⟩]
    have hq1 : (bn - rn) / (mx - mn) ≤ 1 :=
      div_le_one_of_le_of_pos hdpos (by linarith)
    have hq2 : -1 ≤ (bn - rn) / (mx - mn) :=
      neg_one_le_div_of_le hdpos (by linarith)
    refine ⟨⟨by linarith, by linarith⟩, fun hc => absurd hc hdelta, fun _ => ⟨?_, ?_, ?_⟩⟩
    · intro hrcase
      have hmnbn : mn = bn := by
        rcases min3_mem rn gn bn with h | h | h
        · exfalso; apply hdelta; rw [← hmndef] at h; rw [h, hrcase]; ring
        · exfalso; apply hdelta; rw [← hmndef] at h; rw [h, hgcase]; ring
        · rw [← hmndef] at h; exact h
      have e1 : (gn - bn) / (mx - mn) = 1 := by
        have h : gn - bn = mx - mn := by rw [← hmnbn, ← hgcase]
        rw [h, div_self hdelta]
      have e2 : (bn - rn) / (mx - mn) = -1 := by
        have h : bn - rn = -(mx - mn) := by rw [← hmnbn, ← hrcase]; ring
        rw [h, neg_div, div_self hdelta]
      rw [e1, e2]
      have h60 : qmod360 (60 : ℚ) = 60 := qmod360_eq_self (by norm_num) (by norm_num)
      norm_num [h60]
    · intro _
      have hq0 : 0 ≤ 60 * ((bn - rn) / (mx - mn)) + 120 := by linarith
      have hq360 : 60 * ((bn - rn) / (mx - mn)) + 120 < 360 := by linarith
      rw [qmod360_eq_self hq0 hq360]
    · intro hbc; exact absurd hbc hbcase
  have hrcase : mx = rn := by
    rcases max3_mem rn gn bn with h | h | h
    · rw [← hmxdef] at h; exact h
    · exfalso; apply hgcase; rw [← hmxdef] at h; exact h
    · exfalso; apply hbcase; rw [← hmxdef] at h; exact h
  rw [if_neg (by tauto), if_neg (by tauto), if_pos ⟨hrcase, hdelta⟩]
  refine ⟨⟨qmod360_nonneg _, qmod360_lt _⟩, fun hc => absurd hc hdelta, fun _ => ⟨?_, ?_, ?_⟩⟩
  · intro _
    exact qmod360_add_360 _
  · intro hgc; exact absurd hgc hgcase
  · intro hbc; exact absurd hbc hbcase

/-! ## Claims -/

/-- Claim C1: for every pixel of an RGB raster with 8-bit channels,
`rgb_to_hsv_array` returns the triple (hue, saturation·100, value·100)
where, after normalizing the channels to `[0, 1]`, value is the channel
maximum, saturation is 0 when the maximum is 0 and `delta / max` otherwise,
and the hue is 0 where `delta = 0` and otherwise is given by the standard
three-branch formula (offsets 0°, 120°, 240°, taken modulo 360) for the
maximal channel — for every channel attaining the maximum — so that the hue
always lies in `[0, 360)`. -/
theorem rgb_to_hsv_pixel_spec (r g b : ℕ) (rn gn bn mx mn d : ℚ)
    (hr255 : r ≤ 255) (hg255 : g ≤ 255) (hb255 : b ≤ 255)
    (hrn : rn = (r : ℚ) / 255) (hgn : gn = (g : ℚ) / 255)
    (hbn : bn = (b : ℚ) / 255)
    (hmx : mx = max (max rn gn) bn) (hmn : mn = min (min rn gn) bn)
    (hd : d = mx - mn) :
    (rgb_to_hsv_pixel r g b).2.2 = 100 * mx ∧
    (rgb_to_hsv_pixel r g b).2.1 = 100 * (if mx = 0 then 0 else d / mx) ∧
    (0 ≤ (rgb_to_hsv_pixel r g b).1 ∧ (rgb_to_hsv_pixel r g b).1 < 360) ∧
    (d = 0 → (rgb_to_hsv_pixel r g b).1 = 0) ∧
    (d ≠ 0 →
      (mx = rn → (rgb_to_hsv_pixel r g b).1 = qmod360 (60 * ((gn - bn) / d))) ∧
      (mx = gn → (rgb_to_hsv_pixel r g b).1 = qmod360 (60 * ((bn - rn) / d) + 120)) ∧
      (mx = bn → (rgb_to_hsv_pixel r g b).1 = qmod360 (60 * ((rn - gn) / d) + 240))) := by
  subst hrn hgn hbn hmx hmn hd
  exact rgb_to_hsv_core_spec ((r : ℚ) / 255) ((g : ℚ) / 255) ((b : ℚ) / 255)

/-- Witness for C1 at the concrete pixel (51, 204, 102). -/
theorem rgb_to_hsv_pixel_spec_witness :
    ((51 : ℕ) ≤ 255 ∧ (204 : ℕ) ≤ 255 ∧ (102 : ℕ) ≤ 255) ∧
    ((rgb_to_hsv_pixel 51 204 102).2.2 = 100 * (4/5 : ℚ) ∧
      (rgb_to_hsv_pixel 51 204 102).2.1 =
        100 * (if (4/5 : ℚ) = 0 then 0 else (3/5 : ℚ) / (4/5 : ℚ)) ∧
      (0 ≤ (rgb_to_hsv_pixel 51 204 102).1 ∧ (rgb_to_hsv_pixel 51 204 102).1 < 360) ∧
      ((3/5 : ℚ) = 0 → (rgb_to_hsv_pixel 51 204 102).1 = 0) ∧
      ((3/5 : ℚ) ≠ 0 →
        ((4/5 : ℚ) = 1/5 →
          (rgb_to_hsv_pixel 51 204 102).1 = qmod360 (60 * (((4/5 : ℚ) - 2/5) / (3/5)))) ∧
        ((4/5 : ℚ) = 4/5 →
          (rgb_to_hsv_pixel 51 204 102).1 = qmod360 (60 * (((2/5 : ℚ) - 1/5) / (3/5)) + 120)) ∧
        ((4/5 : ℚ) = 2/5 →
          (rgb_to_hsv_pixel 51 204 102).1 = qmod360 (60 * (((1/5 : ℚ) - 4/5) / (3/5)) + 240)))) :=
  ⟨⟨by decide, by decide, by decide⟩,
    rgb_to_hsv_pixel_spec 51 204 102 (1/5) (4/5) (2/5) (4/5) (1/5) (3/5)
      (by decide) (by decide) (by decide) (by norm_num) (by norm_num) (by norm_num)
      (by norm_num [max_def, min_def]) (by norm_num [max_def, min_def]) (by norm_num)⟩

/-- The circular hue distance of the specification:
`min(|h1 - h2|, 360 - |h1 - h2|)`. -/
def circularHueDist (h1 h2 : ℚ) : ℚ := min |h1 - h2| (360 - |h1 - h2|)

/-- Claim C2: the range-based test of `remove_green_screen_hsv` masks a
pixel exactly when its circular hue distance to the hue centre
(`min(|h1 - h2|, 360 - |h1 - h2|)`) is strictly below the hue half-width,
its saturation strictly exceeds the minimum saturation and its value
strictly exceeds the minimum value; in particular the circular distance
rates hues 359° and 1° as 2° apart. -/
theorem hsv_mask_pixel_spec (hue_center hue_range min_saturation min_value : ℚ)
    (p : RGBA) :
    (hsv_mask_pixel hue_center hue_range min_saturation min_value p = true ↔
      (circularHueDist (rgb_to_hsv_pixel p.r p.g p.b).1 hue_center < hue_range ∧
        min_saturation < (rgb_to_hsv_pixel p.r p.g p.b).2.1 ∧
        min_value < (rgb_to_hsv_pixel p.r p.g p.b).2.2)) ∧
    circularHueDist 359 1 = 2 := by
  constructor
  · unfold hsv_mask_pixel circularHueDist
    simp [and_assoc]
  · unfold circularHueDist
    have habs : |(359 : ℚ) - 1| = 358 := by norm_num
    rw [habs]
    norm_num

/-- Claim C3: the ratio-based test of `remove_green_screen_aggressive`
masks a pixel exactly when `g / (max r b + 1) > threshold` and green
strictly exceeds both red and blue; the `+1` offset keeps the denominator
nonzero, and a gray pixel (100, 100, 100) is never masked. -/
theorem aggressive_mask_pixel_spec (green_threshold : ℚ) (p : RGBA) :
    (aggressive_mask_pixel green_threshold p = true ↔
      (green_threshold < (p.g : ℚ) / (max (p.r : ℚ) (p.b : ℚ) + 1) ∧
        p.r < p.g ∧ p.b < p.g)) ∧
    max (p.r : ℚ) (p.b : ℚ) + 1 ≠ 0 ∧
    (∀ a : ℕ,
      aggressive_mask_pixel green_threshold { r := 100, g := 100, b := 100, a := a } = false) := by
  refine ⟨?_, ?_, ?_⟩
  · unfold aggressive_mask_pixel
    simp [and_assoc, Nat.cast_lt]
  · have h : (0 : ℚ) ≤ max (p.r : ℚ) (p.b : ℚ) :=
      le_trans (Nat.cast_nonneg _) (le_max_left _ _)
    intro hc
    linarith
  · intro a
    unfold aggressive_mask_pixel
    simp

lemma binarize_alpha_spec {t : ℤ} (h1 : 1 ≤ t) (a : ℕ) :
    binarize_alpha t a = if (a : ℤ) < t then 0 else 255 := by
  simp only [binarize_alpha]
  split_ifs <;> omega

lemma binarize_alpha_idem (t : ℤ) (a : ℕ) (ha : a ≤ 255) :
    binarize_alpha t (binarize_alpha t a) = binarize_alpha t a := by
  simp only [binarize_alpha]
  split_ifs <;> omega

/-- Claim C4: for thresholds in 1..255, after `cleanup_edges` every alpha
value is 0 or 255: values strictly below the threshold become 0 and values
at or above it become 255. -/
theorem cleanup_edges_alpha_binary (img : Raster) (t : ℤ)
    (hlo : 1 ≤ t) (hhi : t ≤ 255) :
    (∀ row ∈ cleanup_edges img t, ∀ p ∈ row, p.a = 0 ∨ p.a = 255) ∧
    (∀ a : ℕ, binarize_alpha t a = if (a : ℤ) < t then 0 else 255) := by
  refine ⟨?_, binarize_alpha_spec hlo⟩
  intro row hrow p hp
  unfold cleanup_edges at hrow
  rw [List.mem_map] at hrow
  obtain ⟨row0, _, rfl⟩ := hrow
  rw [List.mem_map] at hp
  obtain ⟨p0, _, rfl⟩ := hp
  simp only
  rw [binarize_alpha_spec hlo]
  split_ifs
  · left; rfl
  · right; rfl

/-- Witness for C4 at a concrete raster and the default threshold 128. -/
theorem cleanup_edges_alpha_binary_witness :
    ((1 : ℤ) ≤ 128 ∧ (128 : ℤ) ≤ 255) ∧
    ((∀ row ∈ cleanup_edges [[⟨10, 20, 30, 77⟩, ⟨0, 255, 0, 200⟩]] 128,
        ∀ p ∈ row, p.a = 0 ∨ p.a = 255) ∧
      (∀ a : ℕ, binarize_alpha 128 a = if (a : ℤ) < 128 then 0 else 255)) :=
  ⟨⟨by decide, by decide⟩,
    cleanup_edges_alpha_binary [[⟨10, 20, 30, 77⟩, ⟨0, 255, 0, 200⟩]] 128
      (by decide) (by decide)⟩

/-- Claim C7: `cleanup_edges` is idempotent — for every RGBA raster (8-bit
alpha values) and every threshold, applying it twice with the same
threshold gives the same raster as applying it once. -/
theorem cleanup_edges_idempotent (img : Raster) (t : ℤ)
    (hv : ∀ row ∈ img, ∀ p ∈ row, p.a ≤ 255) :
    cleanup_edges (cleanup_edges img t) t = cleanup_edges img t := by
  unfold cleanup_edges
  rw [List.map_map]
  apply List.map_congr_left
  intro row hrow
  simp only [Function.comp_apply]
  rw [List.map_map]
  apply List.map_congr_left
  intro p hp
  simp only [Function.comp_apply]
  simp [binarize_alpha_idem t p.a (hv row hrow p hp)]

/-- Witness for C7 at a concrete raster and threshold 40. -/
theorem cleanup_edges_idempotent_witness :
    (∀ row ∈ ([[⟨10, 20, 30, 77⟩, ⟨0, 255, 0, 10⟩]] : Raster),
        ∀ p ∈ row, p.a ≤ 255) ∧
    cleanup_edges (cleanup_edges [[⟨10, 20, 30, 77⟩, ⟨0, 255, 0, 10⟩]] 40) 40 =
      cleanup_edges [[⟨10, 20, 30, 77⟩, ⟨0, 255, 0, 10⟩]] 40 :=
  ⟨by decide,
    cleanup_edges_idempotent [[⟨10, 20, 30, 77⟩, ⟨0, 255, 0, 10⟩]] 40 (by decide)⟩

lemma map_rowMapIdx {α β : Type} (f : ℤ → ℤ → α → α) (proj : α → β)
    (h : ∀ i j p, proj (f i j p) = proj p) :
    ∀ (l : List α) (i j : ℤ), (rowMapIdx f i j l).map proj = l.map proj := by
  intro l
  induction l with
  | nil => intro i j; rfl
  | cons p ps ih =>
    intro i j
    simp [rowMapIdx, h, ih]

lemma map_gridMapIdx {α β : Type} (f : ℤ → ℤ → α → α) (proj : α → β)
    (h : ∀ i j p, proj (f i j p) = proj p) :
    ∀ (G : List (List α)) (i : ℤ),
      (gridMapIdx f i G).map (fun row => row.map proj) =
        G.map (fun row => row.map proj) := by
  intro G
  induction G with
  | nil => intro i; rfl
  | cons row rows ih =>
    intro i
    simp only [gridMapIdx, List.map_cons]
    rw [map_rowMapIdx f proj h, ih]

lemma dims_setAlphaWhere (M : Mask) (img : Raster) :
    dims (setAlphaWhere M img) = dims img := dims_gridMapIdx _ _ _

lemma rgbOf_setAlphaWhere (M : Mask) (img : Raster) :
    rgbOf (setAlphaWhere M img) = rgbOf img := by
  unfold rgbOf setAlphaWhere
  apply map_gridMapIdx
  intro i j p
  split_ifs <;> rfl

/-- Claim C8: each of the three processing stages returns a raster of the
same dimensions as its input with every pixel's red, green and blue
channels unchanged; only the alpha channel is modified. -/
theorem stages_preserve_dims_and_rgb (img : Raster)
    (hue_center hue_range min_saturation min_value : ℚ) (edge_cleanup : Bool)
    (green_threshold : ℚ) (edge_pixels : ℕ) (threshold : ℤ) :
    (dims (remove_green_screen_hsv img hue_center hue_range min_saturation
        min_value edge_cleanup) = dims img ∧
      rgbOf (remove_green_screen_hsv img hue_center hue_range min_saturation
        min_value edge_cleanup) = rgbOf img) ∧
    (dims (remove_green_screen_aggressive img green_threshold edge_pixels) = dims img ∧
      rgbOf (remove_green_screen_aggressive img green_threshold edge_pixels) = rgbOf img) ∧
    (dims (cleanup_edges img threshold) = dims img ∧
      rgbOf (cleanup_edges img threshold) = rgbOf img) := by
  refine ⟨⟨dims_setAlphaWhere _ _, rgbOf_setAlphaWhere _ _⟩,
    ⟨dims_setAlphaWhere _ _, rgbOf_setAlphaWhere _ _⟩, ⟨?_, ?_⟩⟩
  · simp [dims, cleanup_edges, List.map_map, Function.comp_def]
  · simp [rgbOf, cleanup_edges, List.map_map, Function.comp_def]

/-! ## Morphology lemmas -/

lemma mget_dilate1 (M : Mask) (i j : ℤ) :
    mget (dilate1 M) i j = if inGrid M i j then dilateAt M i j else false := by
  unfold mget dilate1
  rw [gget_gridMapIdx (fun i j _ => dilateAt M i j) false false M i j]

lemma mget_erode1 (M : Mask) (i j : ℤ) :
    mget (erode1 M) i j = if inGrid M i j then erodeAt M i j else false := by
  unfold mget erode1
  rw [gget_gridMapIdx (fun i j _ => erodeAt M i j) false false M i j]

lemma mget_maskOf (f : RGBA → Bool) (img : Raster) (i j : ℤ) :
    mget (maskOf f img) i j = if inGrid img i j then f (pixelAt img i j) else false := by
  unfold mget maskOf pixelAt
  rw [gget_gridMapIdx (fun _ _ p => f p) default false img i j]

lemma pixelAt_setAlphaWhere (M : Mask) (img : Raster) (i j : ℤ) :
    pixelAt (setAlphaWhere M img) i j =
      if inGrid img i j then
        (if mget M i j then { pixelAt img i j with a := 0 } else pixelAt img i j)
      else default := by
  unfold pixelAt setAlphaWhere
  rw [gget_gridMapIdx (fun i j p => if mget M i j then { p with a := 0 } else p)
    default default img i j]

lemma dims_dilate1 (M : Mask) : dims (dilate1 M) = dims M := dims_gridMapIdx _ _ _

lemma dims_erode1 (M : Mask) : dims (erode1 M) = dims M := dims_gridMapIdx _ _ _

lemma dims_maskOf (f : RGBA → Bool) (img : Raster) :
    dims (maskOf f img) = dims img := dims_gridMapIdx _ _ _

lemma dilateAt_iff (M : Mask) (i j : ℤ) :
    dilateAt M i j = true ↔
      (mget M i j = true ∨ mget M (i + 1) j = true ∨ mget M (i - 1) j = true ∨
        mget M i (j + 1) = true ∨ mget M i (j - 1) = true) := by
  unfold dilateAt neighbors4c
  have e1 : i + (-1 : ℤ) = i - 1 := by ring
  have e2 : j + (-1 : ℤ) = j - 1 := by ring
  simp [List.any_cons, e1, e2]

lemma erodeAt_iff (M : Mask) (i j : ℤ) :
    erodeAt M i j = true ↔
      (mget M i j = true ∧ mget M (i + 1) j = true ∧ mget M (i - 1) j = true ∧
        mget M i (j + 1) = true ∧ mget M i (j - 1) = true) := by
  unfold erodeAt neighbors4c
  have e1 : i + (-1 : ℤ) = i - 1 := by ring
  have e2 : j + (-1 : ℤ) = j - 1 := by ring
  simp [List.all_cons, e1, e2]

/-- Pointwise order between masks. -/
def MaskLE (A B : Mask) : Prop := ∀ i j, mget A i j = true → mget B i j = true

lemma dilateAt_mono {A B : Mask} (h : MaskLE A B) (i j : ℤ) :
    dilateAt A i j = true → dilateAt B i j = true := by
  rw [dilateAt_iff, dilateAt_iff]
  rintro (hm | hm | hm | hm | hm)
  · exact Or.inl (h _ _ hm)
  · exact Or.inr (Or.inl (h _ _ hm))
  · exact Or.inr (Or.inr (Or.inl (h _ _ hm)))
  · exact Or.inr (Or.inr (Or.inr (Or.inl (h _ _ hm))))
  · exact Or.inr (Or.inr (Or.inr (Or.inr (h _ _ hm))))

lemma erodeAt_mono {A B : Mask} (h : MaskLE A B) (i j : ℤ) :
    erodeAt A i j = true → erodeAt B i j = true := by
  rw [erodeAt_iff, erodeAt_iff]
  rintro ⟨h1, h2, h3, h4, h5⟩
  exact ⟨h _ _ h1, h _ _ h2, h _ _ h3, h _ _ h4, h _ _ h5⟩

lemma dilate1_mono {A B : Mask} (hdims : dims A = dims B) (h : MaskLE A B) :
    MaskLE (dilate1 A) (dilate1 B) := by
  intro i j hm
  rw [mget_dilate1] at hm ⊢
  by_cases hin : inGrid A i j
  · rw [if_pos hin] at hm
    rw [if_pos ((inGrid_of_dims_eq hdims).mp hin)]
    exact dilateAt_mono h i j hm
  · rw [if_neg hin] at hm
    exact absurd hm (by simp)

lemma erode1_mono {A B : Mask} (hdims : dims A = dims B) (h : MaskLE A B) :
    MaskLE (erode1 A) (erode1 B) := by
  intro i j hm
  rw [mget_erode1] at hm ⊢
  by_cases hin : inGrid A i j
  · rw [if_pos hin] at hm
    rw [if_pos ((inGrid_of_dims_eq hdims).mp hin)]
    exact erodeAt_mono h i j hm
  · rw [if_neg hin] at hm
    exact absurd hm (by simp)

lemma maskOf_mono {f g : RGBA → Bool} (h : ∀ p, f p = true → g p = true)
    (img : Raster) : MaskLE (maskOf f img) (maskOf g img) := by
  intro i j hm
  rw [mget_maskOf] at hm ⊢
  by_cases hin : inGrid img i j
  · rw [if_pos hin] at hm ⊢
    exact h _ hm
  · rw [if_neg hin] at hm
    exact absurd hm (by simp)

lemma hsv_mask_pixel_mono {hc hr1 hr2 ms1 ms2 mv1 mv2 : ℚ} (p : RGBA)
    (h1 : hr1 ≤ hr2) (h2 : ms2 ≤ ms1) (h3 : mv2 ≤ mv1) :
    hsv_mask_pixel hc hr1 ms1 mv1 p = true →
      hsv_mask_pixel hc hr2 ms2 mv2 p = true := by
  unfold hsv_mask_pixel
  simp only [Bool.and_eq_true, decide_eq_true_eq, gt_iff_lt]
  rintro ⟨ha, hb, hcv⟩
  exact ⟨lt_of_lt_of_le ha h1, ⟨lt_of_le_of_lt h2 hb, lt_of_le_of_lt h3 hcv⟩⟩

/-- Claim C5 (amended): the morphological cleanup of the range-based pass —
dilation by 1 iteration followed by erosion by 1 iteration, both treating
pixels outside the image as unmasked (scipy's default `border_value = 0`) —
keeps every masked pixel whose four neighbours lie inside the image masked,
and fills single-pixel holes (unmasked pixels all four of whose neighbours
are masked).  Masked pixels adjacent to the image border can become
unmasked, and unmasked pixels other than single-pixel holes can also become
masked, so the pass is neither extensive on the border nor free of other
additions. -/
theorem closing_interior_and_holes (M : Mask) (i j : ℤ) :
    (mget M i j = true → inGrid M (i - 1) j → inGrid M (i + 1) j →
      inGrid M i (j - 1) → inGrid M i (j + 1) →
      mget (erode1 (dilate1 M)) i j = true) ∧
    (inGrid M i j → mget M (i - 1) j = true → mget M (i + 1) j = true →
      mget M i (j - 1) = true → mget M i (j + 1) = true →
      mget (erode1 (dilate1 M)) i j = true) := by
  have hdimsD : dims (dilate1 M) = dims M := dims_dilate1 M
  constructor
  · intro hc hm1 hp1 hjm hjp
    have hin : inGrid M i j := mget_true_inGrid hc
    rw [mget_erode1, if_pos ((inGrid_of_dims_eq hdimsD).mpr hin), erodeAt_iff]
    refine ⟨?_, ?_, ?_, ?_, ?_⟩
    · rw [mget_dilate1, if_pos hin, dilateAt_iff]
      exact Or.inl hc
    · rw [mget_dilate1, if_pos hp1, dilateAt_iff]
      have e : i + 1 - 1 = i := by ring
      exact Or.inr (Or.inr (Or.inl (by rw [e]; exact hc)))
    · rw [mget_dilate1, if_pos hm1, dilateAt_iff]
      have e : i - 1 + 1 = i := by ring
      exact Or.inr (Or.inl (by rw [e]; exact hc))
    · rw [mget_dilate1, if_pos hjp, dilateAt_iff]
      have e : j + 1 - 1 = j := by ring
      exact Or.inr (Or.inr (Or.inr (Or.inr (by rw [e]; exact hc))))
    · rw [mget_dilate1, if_pos hjm, dilateAt_iff]
      have e : j - 1 + 1 = j := by ring
      exact Or.inr (Or.inr (Or.inr (Or.inl (by rw [e]; exact hc))))
  · intro hin hm1 hp1 hjm hjp
    rw [mget_erode1, if_pos ((inGrid_of_dims_eq hdimsD).mpr hin), erodeAt_iff]
    refine ⟨?_, ?_, ?_, ?_, ?_⟩
    · rw [mget_dilate1, if_pos hin, dilateAt_iff]
      exact Or.inr (Or.inl hp1)
    · rw [mget_dilate1, if_pos (mget_true_inGrid hp1), dilateAt_iff]
      exact Or.inl hp1
    · rw [mget_dilate1, if_pos (mget_true_inGrid hm1), dilateAt_iff]
      exact Or.inl hm1
    · rw [mget_dilate1, if_pos (mget_true_inGrid hjp), dilateAt_iff]
      exact Or.inl hjp
    · rw [mget_dilate1, if_pos (mget_true_inGrid hjm), dilateAt_iff]
      exact Or.inl hjm

/-- Witness for C5 (amended) on two concrete 3×3 masks: the centre of an
all-true mask stays masked, and a single-pixel hole at the centre of a
plus-shaped mask is filled. -/
theorem closing_interior_and_holes_witness :
    (mget [[true, true, true], [true, true, true], [true, true, true]] 1 1 = true ∧
      mget (erode1 (dilate1 [[true, true, true], [true, true, true], [true, true, true]])) 1 1 = true) ∧
    (mget [[false, true, false], [true, false, true], [false, true, false]] 1 1 = false ∧
      mget (erode1 (dilate1 [[false, true, false], [true, false, true], [false, true, false]])) 1 1 = true) :=
  ⟨⟨by decide,
      (closing_interior_and_holes
          [[true, true, true], [true, true, true], [true, true, true]] 1 1).1
        (by decide) (by decide) (by decide) (by decide) (by decide)⟩,
    ⟨by decide,
      (closing_interior_and_holes
          [[false, true, false], [true, false, true], [false, true, false]] 1 1).2
        (by decide) (by decide) (by decide) (by decide) (by decide)⟩⟩

/-- Counterexample for C5 as stated: (1) on a fully masked 1×1 image the
single masked pixel does NOT stay masked after dilation + erosion (scipy's
erosion treats the outside of the image as unmasked, so it eats the
border); (2) on a 5×5 image masked at (1,1), (2,1), (3,1) and (2,3), the
pixel (2,2) is unmasked, is not a single-pixel hole (its neighbour (1,2) is
unmasked), and yet becomes masked by the cleanup. -/
theorem closing_counterexample :
    (mget [[true]] 0 0 = true ∧
      mget (erode1 (dilate1 [[true]])) 0 0 = false) ∧
    (mget
        [[false, false, false, false, false],
         [false, true, false, false, false],
         [false, true, false, true, false],
         [false, true, false, false, false],
         [false, false, false, false, false]] 2 2 = false ∧
      mget
        [[false, false, false, false, false],
         [false, true, false, false, false],
         [false, true, false, true, false],
         [false, true, false, false, false],
         [false, false, false, false, false]] 1 2 = false ∧
      mget (erode1 (dilate1
        [[false, false, false, false, false],
         [false, true, false, false, false],
         [false, true, false, true, false],
         [false, true, false, false, false],
         [false, false, false, false, false]])) 2 2 = true) := by
  refine ⟨⟨by decide, by decide⟩, ⟨by decide, by decide, by decide⟩⟩

/-- Claim C6: relaxing the thresholds of the range-based segmentation —
widening the hue half-width and/or lowering the minimum saturation and/or
the minimum value, all other parameters equal — can only add pixels to the
produced mask (including the optional morphological cleanup), never remove
them. -/
theorem hsv_green_mask_monotone (img : Raster) (hue_center : ℚ)
    (edge_cleanup : Bool) (hr1 hr2 ms1 ms2 mv1 mv2 : ℚ)
    (hhr : hr1 ≤ hr2) (hms : ms2 ≤ ms1) (hmv : mv2 ≤ mv1) (i j : ℤ)
    (hmask : mget (hsv_green_mask img hue_center hr1 ms1 mv1 edge_cleanup) i j = true) :
    mget (hsv_green_mask img hue_center hr2 ms2 mv2 edge_cleanup) i j = true := by
  unfold hsv_green_mask at hmask ⊢
  have hmono : MaskLE (maskOf (hsv_mask_pixel hue_center hr1 ms1 mv1) img)
      (maskOf (hsv_mask_pixel hue_center hr2 ms2 mv2) img) :=
    maskOf_mono (fun p => hsv_mask_pixel_mono p hhr hms hmv) img
  have hdims : dims (maskOf (hsv_mask_pixel hue_center hr1 ms1 mv1) img) =
      dims (maskOf (hsv_mask_pixel hue_center hr2 ms2 mv2) img) := by
    rw [dims_maskOf, dims_maskOf]
  cases edge_cleanup with
  | false =>
    simp only [Bool.false_eq_true, if_false] at hmask ⊢
    exact hmono i j hmask
  | true =>
    simp only [if_true] at hmask ⊢
    have hdimsD : dims (dilate1 (maskOf (hsv_mask_pixel hue_center hr1 ms1 mv1) img)) =
        dims (dilate1 (maskOf (hsv_mask_pixel hue_center hr2 ms2 mv2) img)) := by
      rw [dims_dilate1, dims_dilate1, hdims]
    exact erode1_mono hdimsD (dilate1_mono hdims hmono) i j hmask

/-- Witness for C6: a 1×1 pure-green raster, thresholds (60, 20, 20)
relaxed to (70, 10, 10), no morphological cleanup. -/
theorem hsv_green_mask_monotone_witness :
    ((60 : ℚ) ≤ 70 ∧ (10 : ℚ) ≤ 20 ∧ (10 : ℚ) ≤ 20) ∧
    (mget (hsv_green_mask [[⟨0, 255, 0, 255⟩]] 120 60 20 20 false) 0 0 = true ∧
      mget (hsv_green_mask [[⟨0, 255, 0, 255⟩]] 120 70 10 10 false) 0 0 = true) := by
  have h1 : mget (hsv_green_mask [[⟨0, 255, 0, 255⟩]] 120 60 20 20 false) 0 0 = true := by
    rw [show (hsv_green_mask [[⟨0, 255, 0, 255⟩]] 120 60 20 20 false) =
        maskOf (hsv_mask_pixel 120 60 20 20) [[⟨0, 255, 0, 255⟩]] from rfl]
    rw [mget_maskOf, if_pos (by decide)]
    unfold hsv_mask_pixel
    norm_num [pixelAt, gget, rgb_to_hsv_pixel, rgb_to_hsv_core, qmod360,
      max_def, min_def, abs_of_nonneg, abs_of_nonpos]
  exact ⟨⟨by norm_num, by norm_num, by norm_num⟩,
    h1, hsv_green_mask_monotone [[⟨0, 255, 0, 255⟩]] 120 false 60 70 20 10 20 10
      (by norm_num) (by norm_num) (by norm_num) 0 0 h1⟩

/-- Claim C9: when no interaction output is an image, `generate_sticker`
fails with the missing-output error instead of returning an image; when at
least one output is an image, it returns the decoded first image output and
does not fail. -/
theorem generate_sticker_output_spec {α : Type} (decode : String → α)
    (outs : List GOutput) :
    ((∀ o ∈ outs, o.type ≠ "image") →
      generate_sticker_extract decode outs =
        Except.error StickerFailure.missingOutput) ∧
    (∀ o, (outs.filter (fun o => o.type == "image")).head? = some o →
      generate_sticker_extract decode outs = Except.ok (decode o.data)) := by
  induction outs with
  | nil =>
    constructor
    · intro _; rfl
    · intro o ho; simp [List.filter] at ho
  | cons x rest ih =>
    constructor
    · intro h
      have hx : x.type ≠ "image" := h x (by simp)
      unfold generate_sticker_extract
      rw [if_neg hx]
      exact ih.1 (fun o ho => h o (by simp [ho]))
    · intro o ho
      by_cases hx : x.type = "image"
      · rw [List.filter_cons_of_pos (by simp [hx])] at ho
        simp only [List.head?_cons, Option.some.injEq] at ho
        unfold generate_sticker_extract
        rw [if_pos hx, ← ho]
      · rw [List.filter_cons_of_neg (by simp [hx])] at ho
        unfold generate_sticker_extract
        rw [if_neg hx]
        exact ih.2 o ho

/-- Witness for C9: a response with no image fails with the missing-output
error; a response whose second output is the first image is decoded. -/
theorem generate_sticker_output_spec_witness :
    ((∀ o ∈ ([⟨"text", "abc"⟩] : List GOutput), o.type ≠ "image") ∧
      generate_sticker_extract (fun s => s) [⟨"text", "abc"⟩] =
        Except.error StickerFailure.missingOutput) ∧
    ((([⟨"text", "abc"⟩, ⟨"image", "xyz"⟩] : List GOutput).filter
          (fun o => o.type == "image")).head? = some ⟨"image", "xyz"⟩ ∧
      generate_sticker_extract (fun s => s) [⟨"text", "abc"⟩, ⟨"image", "xyz"⟩] =
        Except.ok "xyz") :=
  ⟨⟨by decide,
      (generate_sticker_output_spec (fun s => s) [⟨"text", "abc"⟩]).1 (by decide)⟩,
    ⟨by decide,
      (generate_sticker_output_spec (fun s => s)
          [⟨"text", "abc"⟩, ⟨"image", "xyz"⟩]).2 ⟨"image", "xyz"⟩ (by decide)⟩⟩

lemma aggressive_mask_pixel_dark (p : RGBA) (h : p.g ≤ 1) :
    aggressive_mask_pixel (6/5) p = false := by
  unfold aggressive_mask_pixel
  have hmax : (0 : ℚ) ≤ max (p.r : ℚ) (p.b : ℚ) :=
    le_trans (Nat.cast_nonneg _) (le_max_left _ _)
  have hden : (1 : ℚ) ≤ max (p.r : ℚ) (p.b : ℚ) + 1 := by linarith
  have hg1 : ((p.g : ℚ)) ≤ 1 := by exact_mod_cast h
  have hratio : (p.g : ℚ) / (max (p.r : ℚ) (p.b : ℚ) + 1) ≤ 1 :=
    le_trans (div_le_self (Nat.cast_nonneg _) hden) hg1
  have hnot : ¬((6 : ℚ)/5 < (p.g : ℚ) / (max (p.r : ℚ) (p.b : ℚ) + 1)) := by
    intro hgt; linarith
  simp [hnot]

/-- Claim C10: a pixel whose raw green channel is at most 1 is never masked
by `remove_green_screen_aggressive` with the default threshold 1.2 — even
the pure dark green (0, 1, 0) — because `g / (max r b + 1) ≤ 1 < 1.2`; its
whole pixel (in particular its alpha) is left unchanged. -/
theorem aggressive_preserves_dark_pixels (img : Raster) (i j : ℤ)
    (hin : inGrid img i j) (hg : (pixelAt img i j).g ≤ 1) :
    pixelAt (remove_green_screen_aggressive img (6/5) 0) i j = pixelAt img i j := by
  unfold remove_green_screen_aggressive
  rw [pixelAt_setAlphaWhere, if_pos hin]
  have hmask : mget (aggressive_green_mask img (6/5) 0) i j = false := by
    unfold aggressive_green_mask
    simp only [Nat.lt_irrefl, if_false]
    rw [mget_maskOf, if_pos hin]
    exact aggressive_mask_pixel_dark _ hg
  rw [hmask]
  simp

/-- Witness for C10 at a 1×1 raster holding the pure dark green pixel
(0, 1, 0) with alpha 200. -/
theorem aggressive_preserves_dark_pixels_witness :
    (inGrid ([[⟨0, 1, 0, 200⟩]] : Raster) 0 0 ∧
      (pixelAt [[⟨0, 1, 0, 200⟩]] 0 0).g ≤ 1) ∧
    pixelAt (remove_green_screen_aggressive [[⟨0, 1, 0, 200⟩]] (6/5) 0) 0 0 =
      pixelAt [[⟨0, 1, 0, 200⟩]] 0 0 :=
  ⟨⟨by decide, by decide⟩,
    aggressive_preserves_dark_pixels [[⟨0, 1, 0, 200⟩]] 0 0 (by decide) (by decide)⟩
